import Mathlib

/-!
Verification development for the `rplay` raw-audio player.

The embedding below translates the program's core into Lean:

* `src/bit_io.rs` — the byte-level numeric codec (`BitReader`, `BitWriter`,
  the `FromBytes`/`ToBytes` impls generated by `impl_bitio_traits_for`).
  Byte streams are `List ℕ` whose elements are bytes (`< 256`); machine
  integers are `ℤ` with explicit two's-complement reduction modulo `2^(8*w)`;
  fallible reads return `Except Unit`.
* `src/main.rs` — `config_sanity_check` (format-resolution table, tee
  exclusivity, the dangerous/loud acknowledgement gate, gain resolution)
  and `write_data` (the pull callback driving the pipeline).

Floating-point sample values are interpreted exactly (every finite IEEE-754
value is a rational), while the arithmetic applied to them (`to_sample`,
`mul_amp`) is idealized as exact arithmetic over `ℚ`; the claims treated
here concern the structure of the pipeline (presence or absence of clamps,
dispatch coverage, byte accounting), which is unaffected by rounding.
-/

/-! ## Byte-level codec (src/bit_io.rs) -/

/-- Little-endian byte decomposition of a natural number into `w` bytes,
mirroring Rust's `to_le_bytes` on the `w*8`-bit unsigned bit pattern. -/
def toLeBytes : ℕ → ℕ → List ℕ
  | 0, _ => []
  | w + 1, x => x % 256 :: toLeBytes w (x / 256)

/-- Recomposition of a little-endian byte list into the unsigned bit
pattern it denotes, mirroring Rust's `from_le_bytes`. -/
def fromLeBytes : List ℕ → ℕ
  | [] => 0
  | b :: bs => b + 256 * fromLeBytes bs

/-- Big-endian encoding: the little-endian bytes reversed, as in Rust's
`to_be_bytes`. -/
def toBeBytes (w x : ℕ) : List ℕ := (toLeBytes w x).reverse

/-- Big-endian decoding, as in Rust's `from_be_bytes`. -/
def fromBeBytes (bs : List ℕ) : ℕ := fromLeBytes bs.reverse

/-- Decode a byte list in the session's byte order (`be = true` for
big-endian), the operation each arm of `BitReader::read` performs. -/
def decodeChunk (be : Bool) (bs : List ℕ) : ℕ :=
  if be then fromBeBytes bs else fromLeBytes bs

/-- `BitReader::read_helper::<N>`: take exactly `n` bytes from the source
with `read_exact`; if fewer than `n` bytes remain the read fails and no
bytes are delivered (no partial decode). -/
def readHelper (n : ℕ) (src : List ℕ) : Except Unit (List ℕ × List ℕ) :=
  if n ≤ src.length then .ok (src.take n, src.drop n) else .error ()

/-- The body shared by every arm of the `match T::SIZE` in
`BitReader::read`: read exactly `w` bytes, then decode them in the
session's byte order, returning the bit pattern and the rest of the
source. -/
def readExactDecode (w : ℕ) (be : Bool) (src : List ℕ) :
    Except Unit (ℕ × List ℕ) :=
  match readHelper w src with
  | .ok (bs, rest) => .ok (decodeChunk be bs, rest)
  | .error e => .error e

/-- `BitReader::read`: dispatch on `T::SIZE`; the sizes 1, 2, 4, 8 and 16
are handled, any other size hits the `panic!("Unsupported size …")` branch,
modelled as `none`. -/
def BitReader.read (w : ℕ) (be : Bool) (src : List ℕ) :
    Option (Except Unit (ℕ × List ℕ)) :=
  match w with
  | 1 => some (readExactDecode 1 be src)
  | 2 => some (readExactDecode 2 be src)
  | 4 => some (readExactDecode 4 be src)
  | 8 => some (readExactDecode 8 be src)
  | 16 => some (readExactDecode 16 be src)
  | _ => none

/-- `BitWriter::write`: emit the value's bytes in the session's byte
order (`to_be_bytes` / `to_le_bytes` on the bit pattern). -/
def BitWriter.write (w : ℕ) (be : Bool) (p : ℕ) : List ℕ :=
  if be then toBeBytes w p else toLeBytes w p

/-! ## Sample formats (cpal::SampleFormat as used by the program) -/

/-- The sample formats `config_sanity_check` can resolve to. -/
inductive SampleFormat
  | i8 | u8 | i16 | u16 | i32 | u32 | i64 | u64 | f32 | f64
deriving DecidableEq, Repr

/-- Width of the format in bytes (`mem::size_of` of the concrete type). -/
def SampleFormat.width : SampleFormat → ℕ
  | .i8 => 1 | .u8 => 1
  | .i16 => 2 | .u16 => 2
  | .i32 => 4 | .u32 => 4
  | .i64 => 8 | .u64 => 8
  | .f32 => 4 | .f64 => 8

/-- Signed integer formats. -/
def SampleFormat.isSigned : SampleFormat → Bool
  | .i8 | .i16 | .i32 | .i64 => true
  | _ => false

/-- Floating-point formats. -/
def SampleFormat.isFloat : SampleFormat → Bool
  | .f32 | .f64 => true
  | _ => false

/-- Integer (non-float) formats. -/
def SampleFormat.isInteger (f : SampleFormat) : Bool := !f.isFloat

/-- The values representable in a format, as integers: the signed range
for signed formats, the unsigned range for unsigned formats, and for the
float formats the set of 32- or 64-bit patterns (each finite `f32`/`f64`
value corresponds to exactly one pattern, which is what the byte codec
round-trips). -/
def inRange (fmt : SampleFormat) (x : ℤ) : Prop :=
  if fmt.isSigned = true then
    -(2 ^ (8 * fmt.width - 1)) ≤ x ∧ x < 2 ^ (8 * fmt.width - 1)
  else
    0 ≤ x ∧ x < 2 ^ (8 * fmt.width)

instance (fmt : SampleFormat) (x : ℤ) : Decidable (inRange fmt x) := by
  unfold inRange; infer_instance

/-- The `8*w`-bit pattern of a value: the identity on unsigned values and
float patterns, two's complement for signed values — exactly what Rust's
`to_le_bytes`/`to_be_bytes` serialize. -/
def toPattern (fmt : SampleFormat) (x : ℤ) : ℕ :=
  (x % (2 ^ (8 * fmt.width) : ℤ)).toNat

/-- The value denoted by an `8*w`-bit pattern: two's-complement for signed
formats, the identity otherwise — what `from_le_bytes`/`from_be_bytes`
deserialize. -/
def fromPattern (fmt : SampleFormat) (p : ℕ) : ℤ :=
  if fmt.isSigned = true ∧ 2 ^ (8 * fmt.width - 1) ≤ p then
    (p : ℤ) - 2 ^ (8 * fmt.width)
  else p

/-- Encoding of a value through `BitWriter::write`. -/
def encode (fmt : SampleFormat) (be : Bool) (x : ℤ) : List ℕ :=
  BitWriter.write fmt.width be (toPattern fmt x)

/-- Decoding of a byte chunk as done inside `BitReader::read`. -/
def decode (fmt : SampleFormat) (be : Bool) (bs : List ℕ) : ℤ :=
  fromPattern fmt (decodeChunk be bs)

/-! ## Configuration (src/main.rs: `Opt`, `config_sanity_check`) -/

/-- The parsed command-line options consumed by `config_sanity_check`
(the `infile` path is only used to open the byte source, an I/O action
outside the embedding). -/
structure Opt where
  sample_rate : ℕ
  sample_size : ℕ
  channels : ℕ
  gain : ℚ
  unsigned : Bool
  float : Bool
  be : Bool
  post_out : Bool
  pre_out : Bool
  loud : Bool
  dangerous : Bool
  i_understand : Bool
deriving DecidableEq, Repr

/-- The `match (opt.float, opt.unsigned, opt.sample_size)` at the top of
`config_sanity_check`, arm for arm. -/
def resolveSampleFormat (float unsigned : Bool) (size : ℕ) :
    Except String SampleFormat :=
  match float, unsigned, size with
  | false, false, 8 => .ok .i8
  | false, true, 8 => .ok .u8
  | false, false, 16 => .ok .i16
  | false, true, 16 => .ok .u16
  | false, false, 32 => .ok .i32
  | false, true, 32 => .ok .u32
  | false, false, 64 => .ok .i64
  | false, true, 64 => .ok .u64
  | true, false, 32 => .ok .f32
  | true, false, 64 => .ok .f64
  | true, true, _ =>
      .error "Floating point values can not be represented as unsigned"
  | true, false, n =>
      .error ("Unsupported floating point size: " ++ toString n)
  | false, _, n =>
      .error ("Unsupported sample size: " ++ toString n)

/-- Rust's `f32::clamp(self, min, max)` (total-order version; `ℚ` has no
NaN). -/
def rustClamp (x lo hi : ℚ) : ℚ :=
  if x < lo then lo else if x > hi then hi else x

/-- The two sequential gain updates at the end of `config_sanity_check`:
`if !opt.dangerous { opt.gain = opt.gain.clamp(0.0, 1.0) }` followed by
`if !opt.loud { opt.gain = opt.gain.mul_amp(0.33) }`. -/
def resolveGain (g : ℚ) (dangerous loud : Bool) : ℚ :=
  let g1 := if !dangerous then rustClamp g 0 1 else g
  if !loud then g1 * (33 / 100) else g1

/-- `config_sanity_check`, with I/O elided: resolve the sample format from
the flag triple, reject conflicting tee flags, enforce the
`--i-understand` acknowledgement for the dangerous features (the code
calls `process::exit(1)` there, modelled as an error since either way no
session is created; warnings printed to stderr do not alter control flow
and are not modelled), then resolve the gain: clamp to `[0, 1]` unless
`--dangerous`, attenuate by `0.33` (`mul_amp`) unless `--loud`. Returns
the resolved format together with the final gain multiplier captured for
the session. -/
def configSanityCheck (o : Opt) : Except String (SampleFormat × ℚ) :=
  match resolveSampleFormat o.float o.unsigned o.sample_size with
  | .error e => .error e
  | .ok fmt =>
    if o.pre_out && o.post_out then
      .error "Incompatible options '--pre' and '--post', can choose only one or none"
    else if (o.dangerous || o.loud) && !o.i_understand then
      .error "LOUD SOUND WARNING: pass the --i-understand option"
    else
      .ok (fmt, resolveGain o.gain o.dangerous o.loud)

/-- Follows the spec's words (for comparison against the code): the
resolved multiplier is `clamp(configured_gain, 0, 1) ×
default_attenuation`, where the dangerous override skips the clamp and
the loud override skips the attenuation. -/
def resolvedGainSpec (g : ℚ) (dangerous loud : Bool) : ℚ :=
  (if dangerous then g else min (max g 0) 1) * (if loud then 1 else 33 / 100)

/-! ## Normalization and the pull callback (src/main.rs: `write_data`) -/

/-- Exact rational value of an IEEE-754 binary float with `eb` exponent
bits and `mb` mantissa bits, given its bit pattern. Finite values are
interpreted exactly; the infinity/NaN patterns (biased exponent all ones)
are given by the same formula, a junk value never relied upon. -/
def ieeeVal (eb mb : ℕ) (p : ℕ) : ℚ :=
  let s := p / 2 ^ (eb + mb) % 2
  let e := p / 2 ^ mb % 2 ^ eb
  let m := p % 2 ^ mb
  let bias := 2 ^ (eb - 1) - 1
  let mag : ℚ :=
    if e = 0 then (m : ℚ) * 2 / 2 ^ (bias + mb)
    else ((2 ^ mb + m : ℕ) : ℚ) * 2 ^ e / 2 ^ (bias + mb)
  if s = 1 then -mag else mag

/-- Modelled from the spec: the `dasp_sample::ToSample<f32>` conversion
(the crate is an external dependency, not part of this repository's
sources). Per the spec's Sample Transform step 2: a signed integer of
width `W` bits is scaled by `1 / 2^(W-1)`; an unsigned integer is first
recentred at the midpoint `2^(W-1)` and then scaled the same way; a
floating-point sample passes through unchanged (here: the exact rational
value of its bit pattern). Arithmetic is idealized over `ℚ`. -/
def toSampleF32 : SampleFormat → ℤ → ℚ
  | .i8, x => (x : ℚ) / 2 ^ 7
  | .u8, x => ((x : ℚ) - 2 ^ 7) / 2 ^ 7
  | .i16, x => (x : ℚ) / 2 ^ 15
  | .u16, x => ((x : ℚ) - 2 ^ 15) / 2 ^ 15
  | .i32, x => (x : ℚ) / 2 ^ 31
  | .u32, x => ((x : ℚ) - 2 ^ 31) / 2 ^ 31
  | .i64, x => (x : ℚ) / 2 ^ 63
  | .u64, x => ((x : ℚ) - 2 ^ 63) / 2 ^ 63
  | .f32, x => ieeeVal 8 23 x.toNat
  | .f64, x => ieeeVal 11 52 x.toNat

/-- The sample transform applied to a raw bit pattern obtained from the
reader: deserialize it to the typed value (`next_sample` returns `I`),
then convert with `to_sample::<f32>()`. -/
def normOf (fmt : SampleFormat) (p : ℕ) : ℚ :=
  toSampleF32 fmt (fromPattern fmt p)

/-- The inner `for sample in frame.iter_mut()` loop of `write_data`,
processing `k` consecutive buffer slots: for each slot, pull one sample
with `next_sample` (a read failure makes `next_sample` call
`process::exit(1)`, modelled as the `Except` error), apply
`to_sample::<f32>()` and `mul_amp(gain)`, perform the tee `match` (whose
`(Some(_), true, true)` arm is `panic!`, modelled as `none`; the tee
writes themselves go to the external sink and do not affect the buffer),
and store the post-gain value into the slot. Returns the slot values in
order together with the unconsumed source. -/
def writeFrame (gain : ℚ) (w : ℕ) (be : Bool) (norm : ℕ → ℚ)
    (hasSink preOut postOut : Bool) :
    ℕ → List ℕ → Option (Except Unit (List ℚ × List ℕ))
  | 0, src => some (.ok ([], src))
  | k + 1, src =>
    match readExactDecode w be src with
    | .error e => some (.error e)
    | .ok (p, src') =>
      if hasSink && preOut && postOut then none
      else
        match writeFrame gain w be norm hasSink preOut postOut k src' with
        | none => none
        | some (.error e) => some (.error e)
        | some (.ok (rest, src'')) => some (.ok (norm p * gain :: rest, src''))

/-- `write_data`: iterate over `output.chunks_mut(channels)` (chunks of
`channels` slots, the last possibly shorter; `chunks_mut(0)` panics,
modelled as `none`) and fill every slot of every chunk in order via the
inner loop. `bufLen` is the length of the externally supplied `f32`
buffer; the returned list holds the value written to each slot. -/
def writeData (channels : ℕ) (gain : ℚ) (w : ℕ) (be : Bool) (norm : ℕ → ℚ)
    (hasSink preOut postOut : Bool) (bufLen : ℕ) (src : List ℕ) :
    Option (Except Unit (List ℚ × List ℕ)) :=
  if _hc : channels = 0 then none
  else if _hb : bufLen = 0 then some (.ok ([], src))
  else
    match writeFrame gain w be norm hasSink preOut postOut (min channels bufLen) src with
    | none => none
    | some (.error e) => some (.error e)
    | some (.ok (out1, src')) =>
      match writeData channels gain w be norm hasSink preOut postOut
          (bufLen - min channels bufLen) src' with
      | none => none
      | some (.error e) => some (.error e)
      | some (.ok (out2, src'')) => some (.ok (out1 ++ out2, src''))
termination_by bufLen
decreasing_by omega

/-! ## Codec lemmas -/

lemma toLeBytes_length (w x : ℕ) : (toLeBytes w x).length = w := by
  induction w generalizing x with
  | zero => rfl
  | succ w ih => simp [toLeBytes, ih]

lemma fromLeBytes_toLeBytes (w x : ℕ) (h : x < 256 ^ w) :
    fromLeBytes (toLeBytes w x) = x := by
  induction w generalizing x with
  | zero =>
    simp only [pow_zero, Nat.lt_one_iff] at h
    simp [toLeBytes, fromLeBytes, h]
  | succ w ih =>
    have hdiv : x / 256 < 256 ^ w := by
      rw [Nat.div_lt_iff_lt_mul (by norm_num)]
      calc x < 256 ^ (w + 1) := h
        _ = 256 ^ w * 256 := by rw [pow_succ]
    simp [toLeBytes, fromLeBytes, ih _ hdiv, Nat.mod_add_div]

lemma fromBeBytes_toBeBytes (w x : ℕ) (h : x < 256 ^ w) :
    fromBeBytes (toBeBytes w x) = x := by
  simp [fromBeBytes, toBeBytes, fromLeBytes_toLeBytes w x h]

lemma fromLeBytes_lt (bs : List ℕ) (h : ∀ b ∈ bs, b < 256) :
    fromLeBytes bs < 256 ^ bs.length := by
  induction bs with
  | nil => simp [fromLeBytes]
  | cons b bs ih =>
    have hb : b < 256 := h b (List.mem_cons_self b bs)
    have ht := ih (fun c hc => h c (List.mem_cons_of_mem b hc))
    simp only [fromLeBytes, List.length_cons, pow_succ]
    have h1 : 1 ≤ 256 ^ bs.length := Nat.one_le_pow _ _ (by norm_num)
    omega

lemma fromBeBytes_lt (bs : List ℕ) (h : ∀ b ∈ bs, b < 256) :
    fromBeBytes bs < 256 ^ bs.length := by
  have := fromLeBytes_lt bs.reverse (by simpa using h)
  simpa [fromBeBytes] using this

lemma decodeChunk_lt (be : Bool) (bs : List ℕ) (h : ∀ b ∈ bs, b < 256) :
    decodeChunk be bs < 256 ^ bs.length := by
  cases be <;> simp [decodeChunk, fromLeBytes_lt bs h, fromBeBytes_lt bs h]

lemma pow_256_eq (w : ℕ) : 256 ^ w = 2 ^ (8 * w) := by
  rw [show (256 : ℕ) = 2 ^ 8 by norm_num, ← pow_mul]

lemma SampleFormat.width_pos (fmt : SampleFormat) : 1 ≤ fmt.width := by
  cases fmt <;> decide

lemma toPattern_lt (fmt : SampleFormat) (x : ℤ) :
    toPattern fmt x < 2 ^ (8 * fmt.width) := by
  have hpos : (0 : ℤ) < 2 ^ (8 * fmt.width) := by positivity
  have hnn : 0 ≤ x % 2 ^ (8 * fmt.width) := Int.emod_nonneg x (ne_of_gt hpos)
  have hlt : x % 2 ^ (8 * fmt.width) < 2 ^ (8 * fmt.width) := Int.emod_lt_of_pos x hpos
  have hc : (((2 : ℕ) ^ (8 * fmt.width) : ℕ) : ℤ) = 2 ^ (8 * fmt.width) := by push_cast; ring
  unfold toPattern
  omega

lemma fromPattern_toPattern (fmt : SampleFormat) (x : ℤ) (hx : inRange fmt x) :
    fromPattern fmt (toPattern fmt x) = x := by
  have hw : 1 ≤ fmt.width := fmt.width_pos
  have hW1 : 8 * fmt.width - 1 + 1 = 8 * fmt.width := by omega
  have hpow : (2 : ℤ) ^ (8 * fmt.width) = 2 * 2 ^ (8 * fmt.width - 1) := by
    conv_lhs => rw [← hW1]
    rw [pow_succ]; ring
  have hPpos : (0 : ℤ) < 2 ^ (8 * fmt.width - 1) := by positivity
  have hpos : (0 : ℤ) < 2 ^ (8 * fmt.width) := by positivity
  unfold inRange at hx
  unfold fromPattern toPattern
  by_cases hs : fmt.isSigned = true
  · rw [if_pos hs] at hx
    obtain ⟨h1, h2⟩ := hx
    by_cases hneg : 0 ≤ x
    · have hxlt : x < 2 ^ (8 * fmt.width) := by omega
      have hmod : x % 2 ^ (8 * fmt.width) = x := Int.emod_eq_of_lt hneg hxlt
      rw [hmod]
      have htn : ((x.toNat : ℤ)) = x := Int.toNat_of_nonneg hneg
      rw [if_neg]
      · exact htn
      · rintro ⟨-, hle⟩
        have : (2 ^ (8 * fmt.width - 1) : ℤ) ≤ (x.toNat : ℤ) := by exact_mod_cast hle
        omega
    · push_neg at hneg
      have hmod : x % 2 ^ (8 * fmt.width) = x + 2 ^ (8 * fmt.width) := by
        have hself : (x + 2 ^ (8 * fmt.width) * 1) % 2 ^ (8 * fmt.width) = x % 2 ^ (8 * fmt.width) :=
          Int.add_mul_emod_self_left x (2 ^ (8 * fmt.width)) 1
        rw [mul_one] at hself
        rw [← hself]
        exact Int.emod_eq_of_lt (by omega) (by omega)
      rw [hmod]
      have hnn : 0 ≤ x + 2 ^ (8 * fmt.width) := by omega
      have htn : (((x + 2 ^ (8 * fmt.width)).toNat : ℤ)) = x + 2 ^ (8 * fmt.width) :=
        Int.toNat_of_nonneg hnn
      rw [if_pos]
      · omega
      · refine ⟨hs, ?_⟩
        have : (2 ^ (8 * fmt.width - 1) : ℤ) ≤ ((x + 2 ^ (8 * fmt.width)).toNat : ℤ) := by
          omega
        exact_mod_cast this
  · rw [if_neg hs] at hx
    obtain ⟨h1, h2⟩ := hx
    have hmod : x % 2 ^ (8 * fmt.width) = x := Int.emod_eq_of_lt h1 h2
    rw [hmod, if_neg]
    · exact Int.toNat_of_nonneg h1
    · rintro ⟨hs', -⟩; exact hs hs'

/-- Claim C3: for every supported sample format and both byte orders,
decoding the bytes produced by encoding a representable value returns
that value: `decode (encode x) = x`. -/
theorem decode_encode_roundtrip (fmt : SampleFormat) (be : Bool) (x : ℤ)
    (hx : inRange fmt x) : decode fmt be (encode fmt be x) = x := by
  have hlt : toPattern fmt x < 256 ^ fmt.width := by
    rw [pow_256_eq]; exact toPattern_lt fmt x
  unfold decode encode BitWriter.write decodeChunk
  cases be
  · simp only [Bool.false_eq_true, if_false]
    rw [fromLeBytes_toLeBytes _ _ hlt]
    exact fromPattern_toPattern fmt x hx
  · simp only [if_true]
    rw [fromBeBytes_toBeBytes _ _ hlt]
    exact fromPattern_toPattern fmt x hx

/-- Witness for C3 at `i16`, both byte orders, at the extreme value. -/
theorem decode_encode_roundtrip_witness :
    inRange .i16 (-32768) ∧
    decode .i16 true (encode .i16 true (-32768)) = -32768 ∧
    decode .i16 false (encode .i16 false (-32768)) = -32768 :=
  ⟨by decide, decode_encode_roundtrip .i16 true (-32768) (by decide),
    decode_encode_roundtrip .i16 false (-32768) (by decide)⟩

/-- Claim C4: for every supported format, a read from a source holding at
least `width(format)` bytes succeeds (consuming exactly that many bytes),
and a read from a source holding fewer bytes always returns an error with
no partial decode (the error carries no value). -/
theorem read_size_invariant (fmt : SampleFormat) (be : Bool) (src : List ℕ) :
    (fmt.width ≤ src.length →
      BitReader.read fmt.width be src =
        some (.ok (decodeChunk be (src.take fmt.width), src.drop fmt.width))) ∧
    (src.length < fmt.width →
      BitReader.read fmt.width be src = some (.error ())) := by
  constructor
  · intro h
    cases fmt <;> simp [BitReader.read, readExactDecode, readHelper, SampleFormat.width] <;>
      rw [if_pos (by simpa [SampleFormat.width] using h)]
  · intro h
    cases fmt <;>
      (simp only [SampleFormat.width] at h
       simp [BitReader.read, readExactDecode, readHelper, SampleFormat.width]
       rw [if_neg (by omega)])

/-- Witness for C4: a 4-byte format read from 4 bytes succeeds; from 2
bytes it fails. -/
theorem read_size_invariant_witness :
    BitReader.read SampleFormat.i32.width false [1, 2, 3, 4]
      = some (.ok (decodeChunk false [1, 2, 3, 4], [])) ∧
    BitReader.read SampleFormat.i32.width false [1, 2] = some (.error ()) := by
  constructor
  · have h := (read_size_invariant .i32 false [1, 2, 3, 4]).1 (by decide)
    simpa [SampleFormat.width] using h
  · exact (read_size_invariant .i32 false [1, 2]).2 (by decide)

/-- The primitive types `impl_bitio_traits_for!` instantiates the codec
traits for: `u8, i8, u16, i16, u32, i32, u64, i64, u128, i128, f32, f64`. -/
inductive RustNum
  | u8 | i8 | u16 | i16 | u32 | i32 | u64 | i64 | u128 | i128 | f32 | f64
deriving DecidableEq, Repr

/-- `mem::size_of` of each instantiated type, the value of the generated
`SizedNumber::SIZE` constant. -/
def RustNum.size : RustNum → ℕ
  | .u8 => 1 | .i8 => 1
  | .u16 => 2 | .i16 => 2
  | .u32 => 4 | .i32 => 4
  | .u64 => 8 | .i64 => 8
  | .u128 => 16 | .i128 => 16
  | .f32 => 4 | .f64 => 8

/-- Claim C10: for every type the program instantiates the codec with,
the width dispatch in `BitReader::read` covers the type's size, so the
`Unsupported size` panic branch (`none` in the model) is unreachable for
every call the program can make. -/
theorem read_dispatch_covers (t : RustNum) (be : Bool) (src : List ℕ) :
    (BitReader.read t.size be src).isSome = true := by
  cases t <;> rfl

/-- Claim C2: the format-resolution table of `config_sanity_check`,
row for row: non-float widths 8/16/32/64 map to the signed or unsigned
integer format of that width according to the unsigned flag; float with
width 32 or 64 maps to `f32`/`f64`; the three remaining shapes (float
with unsigned, float with another width, non-float with another width)
each return a configuration error. -/
theorem resolveSampleFormat_table :
    resolveSampleFormat false false 8 = .ok .i8 ∧
    resolveSampleFormat false true 8 = .ok .u8 ∧
    resolveSampleFormat false false 16 = .ok .i16 ∧
    resolveSampleFormat false true 16 = .ok .u16 ∧
    resolveSampleFormat false false 32 = .ok .i32 ∧
    resolveSampleFormat false true 32 = .ok .u32 ∧
    resolveSampleFormat false false 64 = .ok .i64 ∧
    resolveSampleFormat false true 64 = .ok .u64 ∧
    resolveSampleFormat true false 32 = .ok .f32 ∧
    resolveSampleFormat true false 64 = .ok .f64 ∧
    (∀ s, ∃ e, resolveSampleFormat true true s = .error e) ∧
    (∀ s, s ≠ 32 → s ≠ 64 → ∃ e, resolveSampleFormat true false s = .error e) ∧
    (∀ u s, s ≠ 8 → s ≠ 16 → s ≠ 32 → s ≠ 64 →
      ∃ e, resolveSampleFormat false u s = .error e) := by
  refine ⟨rfl, rfl, rfl, rfl, rfl, rfl, rfl, rfl, rfl, rfl, ?_, ?_, ?_⟩
  · intro s
    unfold resolveSampleFormat
    split
    all_goals first | exact ⟨_, rfl⟩ | simp_all
  · intro s h32 h64
    unfold resolveSampleFormat
    split
    all_goals first | exact ⟨_, rfl⟩ | simp_all
  · intro u s h8 h16 h32 h64
    unfold resolveSampleFormat
    split
    all_goals first | exact ⟨_, rfl⟩ | simp_all

/-- Witness for C2: one row of each kind evaluated at a concrete input. -/
theorem resolveSampleFormat_table_witness :
    resolveSampleFormat false false 8 = .ok .i8 ∧
    (∃ e, resolveSampleFormat true true 32 = .error e) ∧
    (∃ e, resolveSampleFormat true false 16 = .error e) ∧
    (∃ e, resolveSampleFormat false true 24 = .error e) := by
  obtain ⟨h1, -, -, -, -, -, -, -, -, -, hrow1, hrow2, hrow3⟩ := resolveSampleFormat_table
  exact ⟨h1, hrow1 32, hrow2 16 (by decide) (by decide),
    hrow3 true 24 (by decide) (by decide) (by decide) (by decide)⟩

/-! ## Configuration lemmas -/

lemma rustClamp_eq_min_max (x : ℚ) : rustClamp x 0 1 = min (max x 0) 1 := by
  unfold rustClamp
  split_ifs with h1 h2 <;> simp [min_def, max_def] <;> split_ifs <;> linarith

lemma configGain_eq (o : Opt) (fmt : SampleFormat) (g : ℚ)
    (h : configSanityCheck o = .ok (fmt, g)) :
    g = resolveGain o.gain o.dangerous o.loud := by
  unfold configSanityCheck at h
  cases hr : resolveSampleFormat o.float o.unsigned o.sample_size with
  | error e => rw [hr] at h; simp at h
  | ok fmt' =>
    rw [hr] at h
    split_ifs at h with h1 h2 <;> simp_all

lemma resolveGain_eq_spec (g : ℚ) (d l : Bool) :
    resolveGain g d l = resolvedGainSpec g d l := by
  unfold resolveGain resolvedGainSpec
  cases d <;> cases l <;> simp [rustClamp_eq_min_max, mul_one]

lemma rustClamp_bounds (g : ℚ) : 0 ≤ rustClamp g 0 1 ∧ rustClamp g 0 1 ≤ 1 := by
  unfold rustClamp
  split_ifs <;> constructor <;> linarith

lemma resolveGain_bounds (g : ℚ) (l : Bool) :
    0 ≤ resolveGain g false l ∧ resolveGain g false l ≤ 1 := by
  obtain ⟨hc0, hc1⟩ := rustClamp_bounds g
  unfold resolveGain
  cases l
  · simp only [Bool.not_false, if_true]
    constructor <;> nlinarith
  · simpa using ⟨hc0, hc1⟩

/-- Claim C9: enabling both the pre-gain and the post-gain tee modes is
rejected as a configuration error before any streaming begins:
`config_sanity_check` returns an error (never a valid session) whenever
both flags are set. -/
theorem tee_exclusivity (o : Opt) (hpre : o.pre_out = true)
    (hpost : o.post_out = true) : ∃ e, configSanityCheck o = .error e := by
  unfold configSanityCheck
  cases h : resolveSampleFormat o.float o.unsigned o.sample_size with
  | error e => exact ⟨e, rfl⟩
  | ok fmt =>
    exact ⟨"Incompatible options '--pre' and '--post', can choose only one or none",
      by simp [hpre, hpost]⟩

/-- Witness for C9: both tee flags set on an otherwise default
configuration. -/
theorem tee_exclusivity_witness :
    ∃ e, configSanityCheck
      (Opt.mk 44100 32 2 1 false false false true true false false false) = .error e :=
  tee_exclusivity (Opt.mk 44100 32 2 1 false false false true true false false false) rfl rfl

/-- Claim C5: the gain multiplier is resolved once by
`config_sanity_check` (before any stream exists; `write_data` receives it
as an immutable captured value), and the resolved value equals
`clamp(configured_gain, 0, 1) × 0.33`, except that `--dangerous` skips
the clamp and `--loud` skips the attenuation, independently per override
combination. -/
theorem gain_resolution (o : Opt) (fmt : SampleFormat) (g : ℚ)
    (h : configSanityCheck o = .ok (fmt, g)) :
    g = resolvedGainSpec o.gain o.dangerous o.loud := by
  rw [configGain_eq o fmt g h, resolveGain_eq_spec]

/-- Witness for C5: a dangerous (unclamped) gain of 5 with attenuation
still applied resolves to `5 × 0.33`. -/
theorem gain_resolution_witness :
    configSanityCheck (Opt.mk 44100 16 2 5 false false false false false false true true)
      = .ok (.i16, 33 / 20) ∧
    (33 / 20 : ℚ) = resolvedGainSpec 5 true false := by
  have hcfg : configSanityCheck
      (Opt.mk 44100 16 2 5 false false false false false false true true)
      = .ok (.i16, 33 / 20) := by
    simp [configSanityCheck, resolveSampleFormat, resolveGain, rustClamp]
    norm_num
  exact ⟨hcfg, gain_resolution _ .i16 (33 / 20) hcfg⟩

/-! ## Pull-callback lemmas -/

def seqFrame (r : Option (Except Unit (List ℚ × List ℕ)))
    (f : List ℕ → Option (Except Unit (List ℚ × List ℕ))) :
    Option (Except Unit (List ℚ × List ℕ)) :=
  match r with
  | none => none
  | some (.error e) => some (.error e)
  | some (.ok (o1, s1)) =>
    match f s1 with
    | none => none
    | some (.error e) => some (.error e)
    | some (.ok (o2, s2)) => some (.ok (o1 ++ o2, s2))

lemma writeFrame_add (g : ℚ) (w : ℕ) (be : Bool) (norm : ℕ → ℚ)
    (hs po qo : Bool) (a b : ℕ) :
    ∀ src, writeFrame g w be norm hs po qo (a + b) src
      = seqFrame (writeFrame g w be norm hs po qo a src)
          (writeFrame g w be norm hs po qo b) := by
  induction a with
  | zero =>
    intro src
    simp only [Nat.zero_add, writeFrame, seqFrame]
    cases hf : writeFrame g w be norm hs po qo b src with
    | none => rfl
    | some r =>
      cases r with
      | error e => rfl
      | ok pr => obtain ⟨o2, s2⟩ := pr; simp
  | succ a ih =>
    intro src
    have hab : a + 1 + b = (a + b) + 1 := by omega
    rw [hab]
    simp only [writeFrame]
    cases hr : readExactDecode w be src with
    | error e => simp [seqFrame]
    | ok pr =>
      obtain ⟨p, src'⟩ := pr
      by_cases hpp : (hs && po && qo) = true
      · simp [hpp, seqFrame]
      · simp only [hpp, if_false, Bool.false_eq_true]
        rw [ih src']
        cases hf : writeFrame g w be norm hs po qo a src' with
        | none => simp [seqFrame]
        | some r =>
          cases r with
          | error e => simp [seqFrame]
          | ok pr2 =>
            obtain ⟨o1, s1⟩ := pr2
            simp only [seqFrame]
            cases hf2 : writeFrame g w be norm hs po qo b s1 with
            | none => simp
            | some r2 =>
              cases r2 with
              | error e => simp
              | ok pr3 => obtain ⟨o2, s2⟩ := pr3; simp

lemma writeData_eq_writeFrame (c : ℕ) (g : ℚ) (w : ℕ) (be : Bool)
    (norm : ℕ → ℚ) (hs po qo : Bool) (hc : 0 < c) :
    ∀ n src, writeData c g w be norm hs po qo n src
      = writeFrame g w be norm hs po qo n src := by
  intro n
  induction n using Nat.strong_induction_on with
  | _ n ih =>
    intro src
    by_cases hb : n = 0
    · subst hb
      unfold writeData
      rw [dif_neg (by omega), dif_pos rfl]
      simp [writeFrame]
    · unfold writeData
      rw [dif_neg (by omega), dif_neg hb]
      have hmin : min c n ≤ n := Nat.min_le_right c n
      have hsplit : n = min c n + (n - min c n) := by omega
      conv_rhs => rw [hsplit]
      rw [writeFrame_add]
      have hrec : n - min c n < n := by omega
      cases hf : writeFrame g w be norm hs po qo (min c n) src with
      | none => simp [seqFrame]
      | some r =>
        cases r with
        | error e => simp [seqFrame]
        | ok pr =>
          obtain ⟨o1, s1⟩ := pr
          simp only [seqFrame]
          rw [ih _ hrec]

lemma readExactDecode_ok_of_le (w : ℕ) (be : Bool) (src : List ℕ)
    (hw : w ≤ src.length) :
    readExactDecode w be src = .ok (decodeChunk be (src.take w), src.drop w) := by
  unfold readExactDecode readHelper
  rw [if_pos hw]

lemma readExactDecode_error_of_lt (w : ℕ) (be : Bool) (src : List ℕ)
    (hw : src.length < w) : readExactDecode w be src = .error () := by
  unfold readExactDecode readHelper
  rw [if_neg (by omega)]


/-- The values the inner loop stores into consecutive buffer slots, one
per `next_sample` pull: the transform of each successive `w`-byte chunk
of the source. -/
def frameOut (g : ℚ) (w : ℕ) (be : Bool) (norm : ℕ → ℚ) : ℕ → List ℕ → List ℚ
  | 0, _ => []
  | k + 1, src => norm (decodeChunk be (src.take w)) * g :: frameOut g w be norm k (src.drop w)

lemma writeFrame_ok (g : ℚ) (w : ℕ) (be : Bool) (norm : ℕ → ℚ)
    (hs po qo : Bool) (hpp : ¬(hs && po && qo) = true) :
    ∀ k src, w * k ≤ src.length →
      writeFrame g w be norm hs po qo k src
        = some (.ok (frameOut g w be norm k src, src.drop (w * k))) := by
  intro k
  induction k with
  | zero => intro src h; simp [writeFrame, frameOut]
  | succ k ih =>
    intro src h
    have hw1 : w ≤ src.length := by
      have h2 : w ≤ w * (k + 1) := Nat.le_mul_of_pos_right w (by omega)
      omega
    have hmul : w * (k + 1) = w * k + w := by ring
    have hlen : w * k ≤ (src.drop w).length := by
      rw [List.length_drop]; omega
    simp only [writeFrame, readExactDecode_ok_of_le w be src hw1, frameOut]
    rw [if_neg hpp, ih (src.drop w) hlen]
    have htail : (src.drop w).drop (w * k) = src.drop (w * (k + 1)) := by
      rw [List.drop_drop]; congr 1; omega
    rw [htail]

lemma writeFrame_error (g : ℚ) (w : ℕ) (be : Bool) (norm : ℕ → ℚ)
    (hs po qo : Bool) (hpp : ¬(hs && po && qo) = true) :
    ∀ k src, src.length < w * k →
      writeFrame g w be norm hs po qo k src = some (.error ()) := by
  intro k
  induction k with
  | zero => intro src h; simp at h
  | succ k ih =>
    intro src h
    simp only [writeFrame]
    by_cases hw1 : w ≤ src.length
    · have hlen : (src.drop w).length < w * k := by
        rw [List.length_drop]
        have : w * (k + 1) = w * k + w := by ring
        omega
      simp only [readExactDecode_ok_of_le w be src hw1]
      rw [if_neg hpp, ih (src.drop w) hlen]
    · rw [readExactDecode_error_of_lt w be src (by omega)]

lemma frameOut_eq_map (g : ℚ) (w : ℕ) (be : Bool) (norm : ℕ → ℚ) :
    ∀ k src, frameOut g w be norm k src
      = (List.range k).map
          (fun i => norm (decodeChunk be ((src.drop (w * i)).take w)) * g) := by
  intro k
  induction k with
  | zero => intro src; simp [frameOut]
  | succ k ih =>
    intro src
    rw [frameOut, ih (src.drop w), List.range_succ_eq_map k, List.map_cons, List.map_map]
    refine congrArg₂ List.cons ?_ ?_
    · simp
    · refine List.map_congr_left ?_
      intro i hi
      simp only [Function.comp_apply]
      rw [List.drop_drop]
      have hwi : w + w * i = w * (i + 1) := by ring
      rw [hwi]

lemma frameOut_length (g : ℚ) (w : ℕ) (be : Bool) (norm : ℕ → ℚ) :
    ∀ k src, (frameOut g w be norm k src).length = k := by
  intro k
  induction k with
  | zero => intro src; rfl
  | succ k ih => intro src; simp [frameOut, ih]

lemma decodeChunk_take_lt (be : Bool) (w : ℕ) (src : List ℕ)
    (hb : ∀ b ∈ src, b < 256) (hw : w ≤ src.length) :
    decodeChunk be (src.take w) < 2 ^ (8 * w) := by
  have h := decodeChunk_lt be (src.take w) (fun b hbm => hb b (List.take_subset w src hbm))
  rw [List.length_take, min_eq_left hw, pow_256_eq] at h
  exact h

lemma writeFrame_mem (g : ℚ) (w : ℕ) (be : Bool) (norm : ℕ → ℚ)
    (hs po qo : Bool) :
    ∀ k src out rest, (∀ b ∈ src, b < 256) →
      writeFrame g w be norm hs po qo k src = some (.ok (out, rest)) →
      ∀ v ∈ out, ∃ p, p < 2 ^ (8 * w) ∧ v = norm p * g := by
  intro k
  induction k with
  | zero =>
    intro src out rest hb h v hv
    simp only [writeFrame, Option.some.injEq, Except.ok.injEq, Prod.mk.injEq] at h
    rw [← h.1] at hv
    simp at hv
  | succ k ih =>
    intro src out rest hb h v hv
    simp only [writeFrame] at h
    by_cases hw1 : w ≤ src.length
    · simp only [readExactDecode_ok_of_le w be src hw1] at h
      by_cases hpp : (hs && po && qo) = true
      · rw [if_pos hpp] at h; simp at h
      · rw [if_neg hpp] at h
        cases hf : writeFrame g w be norm hs po qo k (src.drop w) with
        | none => rw [hf] at h; simp at h
        | some r =>
          cases r with
          | error e => rw [hf] at h; simp at h
          | ok pr =>
            obtain ⟨out2, src2⟩ := pr
            rw [hf] at h
            simp only [Option.some.injEq, Except.ok.injEq, Prod.mk.injEq] at h
            rw [← h.1] at hv
            rcases List.mem_cons.mp hv with hv0 | hvt
            · exact ⟨decodeChunk be (src.take w),
                decodeChunk_take_lt be w src hb hw1, hv0⟩
            · exact ih (src.drop w) out2 src2
                (fun b hbm => hb b (List.drop_subset w src hbm)) hf v hvt
    · simp only [readExactDecode_error_of_lt w be src (by omega)] at h
      simp at h

lemma abs_div_pow_le_one (x : ℤ) (m : ℕ) (h1 : -(2 ^ m) ≤ x) (h2 : x ≤ 2 ^ m) :
    |(x : ℚ) / 2 ^ m| ≤ 1 := by
  have hpos : (0 : ℚ) < 2 ^ m := by positivity
  rw [abs_div, abs_of_pos hpos, div_le_one hpos, abs_le]
  constructor
  · exact_mod_cast h1
  · exact_mod_cast h2

lemma normOf_int_bound (fmt : SampleFormat) (hint : fmt.isInteger = true)
    (p : ℕ) (hp : p < 2 ^ (8 * fmt.width)) : |normOf fmt p| ≤ 1 := by
  cases fmt
  case f32 => simp [SampleFormat.isInteger, SampleFormat.isFloat] at hint
  case f64 => simp [SampleFormat.isInteger, SampleFormat.isFloat] at hint
  all_goals (
    unfold normOf fromPattern toSampleF32
    simp only [SampleFormat.isSigned, SampleFormat.width, true_and,
      Nat.reduceMul, Nat.reduceSub] at hp ⊢)
  case i8 => apply abs_div_pow_le_one <;> split_ifs <;> omega
  case i16 => apply abs_div_pow_le_one <;> split_ifs <;> omega
  case i32 => apply abs_div_pow_le_one <;> split_ifs <;> omega
  case i64 => apply abs_div_pow_le_one <;> split_ifs <;> omega
  case u8 =>
    rw [if_neg (by simp),
      show (((p : ℤ) : ℚ) - 2 ^ 7) = ((((p : ℤ) - 2 ^ 7) : ℤ) : ℚ) by push_cast; ring]
    apply abs_div_pow_le_one <;> omega
  case u16 =>
    rw [if_neg (by simp),
      show (((p : ℤ) : ℚ) - 2 ^ 15) = ((((p : ℤ) - 2 ^ 15) : ℤ) : ℚ) by push_cast; ring]
    apply abs_div_pow_le_one <;> omega
  case u32 =>
    rw [if_neg (by simp),
      show (((p : ℤ) : ℚ) - 2 ^ 31) = ((((p : ℤ) - 2 ^ 31) : ℤ) : ℚ) by push_cast; ring]
    apply abs_div_pow_le_one <;> omega
  case u64 =>
    rw [if_neg (by simp),
      show (((p : ℤ) : ℚ) - 2 ^ 63) = ((((p : ℤ) - 2 ^ 63) : ℤ) : ℚ) by push_cast; ring]
    apply abs_div_pow_le_one <;> omega

lemma writeData_zero_channels (g : ℚ) (w : ℕ) (be : Bool) (norm : ℕ → ℚ)
    (hs po qo : Bool) (bufLen : ℕ) (src : List ℕ) :
    writeData 0 g w be norm hs po qo bufLen src = none := by
  unfold writeData
  rw [dif_pos rfl]

/-- Claim C6: on each pull with sufficient input, `write_data` fills every
slot of the externally supplied buffer in order: the `i`-th slot receives
the transform of the `i`-th consecutive `w`-byte sample (interleaved
channel order preserved across the `chunks_mut(channels)` frames), with
exactly one `next_sample` pull per slot — `bufLen` pulls and `w * bufLen`
consumed bytes in total, so no internal buffering beyond the pull. -/
theorem write_data_fills_buffer (channels : ℕ) (g : ℚ) (w : ℕ) (be : Bool)
    (norm : ℕ → ℚ) (hs po qo : Bool) (bufLen : ℕ) (src : List ℕ)
    (hc : 0 < channels) (hpp : ¬(hs && po && qo) = true)
    (hlen : w * bufLen ≤ src.length) :
    writeData channels g w be norm hs po qo bufLen src
      = some (.ok ((List.range bufLen).map
          (fun i => norm (decodeChunk be ((src.drop (w * i)).take w)) * g),
        src.drop (w * bufLen))) := by
  rw [writeData_eq_writeFrame channels g w be norm hs po qo hc,
    writeFrame_ok g w be norm hs po qo hpp bufLen src hlen,
    frameOut_eq_map]

/-- Witness for C6: a two-channel session, one byte per sample, filling a
two-slot buffer from `[5, 250]`. -/
theorem write_data_fills_buffer_witness :
    writeData 2 1 1 false (normOf .i8) false false false 2 [5, 250]
      = some (.ok ([5 / 128, -(3 / 64)], [])) := by
  rw [write_data_fills_buffer 2 1 1 false (normOf .i8) false false false 2 [5, 250]
    (by norm_num) (by simp) (by norm_num)]
  norm_num [List.range_succ, normOf, fromPattern, toSampleF32, decodeChunk,
    fromLeBytes, SampleFormat.isSigned, SampleFormat.width]

/-- Claim C7: if the byte source holds fewer bytes than the pull
requires, `write_data` reports a fatal error: the failing read returns no
value (no partial-sample recovery, no retry — `next_sample` calls
`process::exit(1)`, the `Except` error here), and no sample is produced
for the failing slot. -/
theorem write_data_truncation_fatal (channels : ℕ) (g : ℚ) (w : ℕ) (be : Bool)
    (norm : ℕ → ℚ) (hs po qo : Bool) (bufLen : ℕ) (src : List ℕ)
    (hc : 0 < channels) (hpp : ¬(hs && po && qo) = true)
    (hlen : src.length < w * bufLen) :
    writeData channels g w be norm hs po qo bufLen src = some (.error ()) := by
  rw [writeData_eq_writeFrame channels g w be norm hs po qo hc]
  exact writeFrame_error g w be norm hs po qo hpp bufLen src hlen

/-- Witness for C7: a 4-byte format with only 2 bytes remaining — the
spec's truncation scenario. -/
theorem write_data_truncation_fatal_witness :
    writeData 2 1 4 false (normOf .i32) false false false 1 [1, 2]
      = some (.error ()) :=
  write_data_truncation_fatal 2 1 4 false (normOf .i32) false false false 1 [1, 2]
    (by norm_num) (by simp) (by norm_num)

/-- Claim C8: the normalization reference values. Signed 16-bit:
raw `-32768` maps to `-1.0` and raw `32767` to `32767/32768 ≈ 0.99997`;
unsigned 8-bit: raw `128` (midpoint) maps to `0.0`, raw `0` to `-1.0`,
raw `255` to `127/128 ≈ 0.992`. -/
theorem normalization_reference_values :
    toSampleF32 .i16 (-32768) = -1 ∧
    toSampleF32 .i16 32767 = 32767 / 32768 ∧
    toSampleF32 .u8 128 = 0 ∧
    toSampleF32 .u8 0 = -1 ∧
    toSampleF32 .u8 255 = 127 / 128 := by
  norm_num [toSampleF32]

/-- Claim C1 counterexample: under the default safety posture (no
overrides; configured gain 1.0 resolves to `0.33`) with float32 input,
the sample `4.0` (bit pattern `0x40800000`, little-endian bytes
`[0,0,128,64]`) is written as `4.0 × 0.33 = 1.32 > 1.0`: `write_data`
applies no clamp after gain, so the claimed hard limit does not exist in
the code. -/
theorem write_data_no_hard_limit_counterexample :
    configSanityCheck (Opt.mk 44100 32 2 1 false true false false false false false false)
      = .ok (.f32, 33 / 100) ∧
    writeData 2 (33 / 100) 4 false (normOf .f32) false false false 1 [0, 0, 128, 64]
      = some (.ok ([33 / 25], [])) ∧
    (1 : ℚ) < 33 / 25 := by
  refine ⟨?_, ?_, by norm_num⟩
  · simp [configSanityCheck, resolveSampleFormat, resolveGain, rustClamp]
  · rw [write_data_fills_buffer 2 (33 / 100) 4 false (normOf .f32) false false false 1
      [0, 0, 128, 64] (by norm_num) (by simp) (by norm_num)]
    norm_num [List.range_succ, normOf, fromPattern, toSampleF32, ieeeVal, decodeChunk,
      fromLeBytes, SampleFormat.isSigned, SampleFormat.width]

/-- Claim C1 (amended): `write_data` applies no post-gain clamp; what
holds is that in the default posture (`--dangerous` unset, so the gain is
clamped to `[0,1]` before the optional attenuation) every sample of an
*integer* input format normalizes into `[-1,1]`, so each value written to
the buffer has magnitude at most `1.0`; float-format samples pass through
un-normalized and can exceed `1.0` (see the counterexample). -/
theorem write_data_integer_default_bounded
    (o : Opt) (fmt : SampleFormat) (g : ℚ)
    (hcfg : configSanityCheck o = .ok (fmt, g)) (hd : o.dangerous = false)
    (hint : fmt.isInteger = true)
    (channels : ℕ) (hs po qo : Bool) (bufLen : ℕ)
    (src : List ℕ) (hsrc : ∀ b ∈ src, b < 256)
    (out : List ℚ) (rest : List ℕ)
    (hrun : writeData channels g fmt.width o.be (normOf fmt) hs po qo bufLen src
      = some (.ok (out, rest)))
    (v : ℚ) (hv : v ∈ out) : |v| ≤ 1 := by
  have hc : 0 < channels := by
    rcases Nat.eq_zero_or_pos channels with h0 | h
    · rw [h0, writeData_zero_channels] at hrun; simp at hrun
    · exact h
  rw [writeData_eq_writeFrame channels g fmt.width o.be (normOf fmt) hs po qo hc] at hrun
  obtain ⟨p, hp, hvp⟩ :=
    writeFrame_mem g fmt.width o.be (normOf fmt) hs po qo bufLen src out rest hsrc hrun v hv
  have hg : 0 ≤ g ∧ g ≤ 1 := by
    rw [configGain_eq o fmt g hcfg, hd]
    exact resolveGain_bounds o.gain o.loud
  have hnb : |normOf fmt p| ≤ 1 := normOf_int_bound fmt hint p hp
  rw [hvp, abs_mul, abs_of_nonneg hg.1]
  calc |normOf fmt p| * g ≤ 1 * 1 :=
        mul_le_mul hnb hg.2 hg.1 (by norm_num)
    _ = 1 := by norm_num

/-- Witness for the amended C1: a default-posture `i16` session writes
`-0.33` for the most negative sample, within the bound. -/
theorem write_data_integer_default_bounded_witness :
    configSanityCheck (Opt.mk 44100 16 2 1 false false false false false false false false)
      = .ok (.i16, 33 / 100) ∧
    writeData 2 (33 / 100) SampleFormat.i16.width false (normOf .i16) false false false 1 [0, 128]
      = some (.ok ([-(33 / 100)], [])) ∧
    |(-(33 / 100) : ℚ)| ≤ 1 := by
  have hcfg : configSanityCheck (Opt.mk 44100 16 2 1 false false false false false false false false)
      = .ok (.i16, 33 / 100) := by
    simp [configSanityCheck, resolveSampleFormat, resolveGain, rustClamp]
  have hrun : writeData 2 (33 / 100) SampleFormat.i16.width false (normOf .i16) false false false 1 [0, 128]
      = some (.ok ([-(33 / 100)], [])) := by
    rw [write_data_fills_buffer 2 (33 / 100) SampleFormat.i16.width false (normOf .i16)
      false false false 1 [0, 128] (by norm_num) (by simp) (by norm_num [SampleFormat.width])]
    norm_num [List.range_succ, normOf, fromPattern, toSampleF32, decodeChunk,
      fromLeBytes, SampleFormat.isSigned, SampleFormat.width]
  refine ⟨hcfg, hrun, ?_⟩
  exact write_data_integer_default_bounded
    (Opt.mk 44100 16 2 1 false false false false false false false false) .i16 (33 / 100)
    hcfg rfl rfl 2 false false false 1 [0, 128] (by decide) [-(33 / 100)] [] hrun
    (-(33 / 100)) (by simp)
